import Mathlib

/-!
Verification of the markdown-spreadsheet synchronization engine
(`md_spreadsheet_editor`): shallow embedding of the services layer
(`services/table.py`, `services/workbook.py`, `services/sheet.py`,
`services/document.py`, `utils_structure.py`) and proofs about it.

Strings are modelled as Lean `String`/`List Char`, Python lists as `List`,
Python dicts as association lists with dict-style insert-or-replace update,
and Python `None`-able values as `Option`.
-/

namespace MdSheets

/-! ## Cell-escaping (`services/table.py::_escape_pipe`) -/

/-- The backtick character (code point 96), written via `Char.ofNat`. -/
def backtickChar : Char := Char.ofNat 96

/-- The backslash character. -/
def backslashChar : Char := '\\'

/-- The pipe character. -/
def pipeChar : Char := '|'

/-- Character-level loop of `_escape_pipe`:
walks the string tracking `in_code` (toggled by backticks), copies
already-escaped two-character sequences verbatim, and inserts a backslash
before every unescaped pipe that is outside a backtick span. -/
def escGo (inCode : Bool) : List Char → List Char
  | [] => []
  | c :: rest =>
    if c = backtickChar then
      c :: escGo (!inCode) rest
    else if c = backslashChar then
      match rest with
      | d :: rest2 => c :: d :: escGo inCode rest2
      | [] => [c]
    else if c = pipeChar ∧ inCode = false then
      backslashChar :: pipeChar :: escGo inCode rest
    else
      c :: escGo inCode rest

/-- Function `_escape_pipe`: returns the input unchanged when it is empty or has no
pipe character, otherwise runs the escaping loop from the non-code state. -/
def escape_pipe (v : String) : String :=
  if v.data = [] ∨ ¬ pipeChar ∈ v.data then v
  else ⟨escGo false v.data⟩

theorem bs_ne_bt : ¬ backslashChar = backtickChar := by decide

theorem pipe_ne_bt : ¬ pipeChar = backtickChar := by decide

theorem pipe_ne_bs : ¬ pipeChar = backslashChar := by decide

theorem escGo_bt (b : Bool) (l : List Char) :
    escGo b (backtickChar :: l) = backtickChar :: escGo (!b) l := by
  cases l <;> simp [escGo]

theorem escGo_bs_pair (b : Bool) (d : Char) (l : List Char) :
    escGo b (backslashChar :: d :: l) = backslashChar :: d :: escGo b l := by
  simp [escGo, bs_ne_bt]

theorem escGo_bs_last (b : Bool) :
    escGo b [backslashChar] = [backslashChar] := by
  simp [escGo, bs_ne_bt]

theorem escGo_pipe (l : List Char) :
    escGo false (pipeChar :: l) = backslashChar :: pipeChar :: escGo false l := by
  cases l <;> simp [escGo, pipe_ne_bt, pipe_ne_bs]

theorem escGo_other (b : Bool) (c : Char) (l : List Char)
    (h1 : ¬ c = backtickChar) (h2 : ¬ c = backslashChar)
    (h3 : ¬ (c = pipeChar ∧ b = false)) :
    escGo b (c :: l) = c :: escGo b l := by
  cases l <;> simp [escGo, h1, h2, h3]

/-- Running the escaping loop a second time over its own output (from the
same starting state) changes nothing: backticks keep the states aligned,
escaped pairs are copied verbatim, and every pipe the first pass escaped is
seen as an escaped pair by the second pass. -/
theorem escGo_escGo (b : Bool) (l : List Char) :
    escGo b (escGo b l) = escGo b l := by
  induction b, l using escGo.induct with
  | case1 => simp [escGo]
  | case2 inCode rest ih => rw [escGo_bt, escGo_bt, ih]
  | case3 inCode d rest2 h ih => rw [escGo_bs_pair, escGo_bs_pair, ih]
  | case4 inCode h => rw [escGo_bs_last, escGo_bs_last]
  | case5 inCode c rest h1 h2 h3 ih =>
    obtain ⟨hc, hic⟩ := h3
    subst hc hic
    rw [escGo_pipe, escGo_bs_pair, ih]
  | case6 inCode c rest h1 h2 h3 ih =>
    rw [escGo_other _ _ _ h1 h2 h3, escGo_other _ _ _ h1 h2 h3, ih]

/-- C10: the pipe-escaping function applied to every raw string written into
a cell (`update_cell`, `paste_cells`) is idempotent: escaping an
already-escaped string changes nothing, because a pipe inside a backtick
span and a pair already starting with a backslash are never escaped again. -/
theorem escape_pipe_idempotent (v : String) :
    escape_pipe (escape_pipe v) = escape_pipe v := by
  unfold escape_pipe
  by_cases h : v.data = [] ∨ ¬ pipeChar ∈ v.data
  · rw [if_pos h, if_pos h]
  · rw [if_neg h]
    by_cases h2 : (String.mk (escGo false v.data)).data = [] ∨
        ¬ pipeChar ∈ (String.mk (escGo false v.data)).data
    · rw [if_pos h2]
    · rw [if_neg h2]
      show String.mk (escGo false (escGo false v.data)) = _
      rw [escGo_escGo]

/-! ## Line utilities modelling Python string primitives

`sTrim` models `str.strip()`, `sStartsWith` models `str.startswith`,
`sDrop` models slicing `s[n:]`, and `splitLines` models
`md_text.split("\n")`.  All are structural so concrete inputs evaluate
inside the kernel. -/

/-- Whitespace characters stripped by Python `str.strip()`. -/
def isSpaceChar (c : Char) : Bool :=
  c = ' ' ∨ c = '\t' ∨ c = '\n' ∨ c = '\r' ∨ c = Char.ofNat 11 ∨ c = Char.ofNat 12

def trimChars (l : List Char) : List Char :=
  ((l.dropWhile isSpaceChar).reverse.dropWhile isSpaceChar).reverse

def splitLinesChars : List Char → List (List Char)
  | [] => [[]]
  | c :: rest =>
    match splitLinesChars rest with
    | [] => [[c]]
    | h :: t => if c = '\n' then [] :: h :: t else (c :: h) :: t

def splitLines (s : String) : List String :=
  (splitLinesChars s.data).map (fun l => ⟨l⟩)

def sTrim (s : String) : String := ⟨trimChars s.data⟩

def sStartsWith (s pre : String) : Bool := pre.data.isPrefixOf s.data

def sDrop (s : String) (n : Nat) : String := ⟨s.data.drop n⟩

/-! ## Boundary scanner (`services/workbook.py::get_workbook_range`,
`utils_structure.py::extract_structure`) -/

/-- A line whose trimmed content starts with a triple backtick: toggles the
`in_code_block` flag of every scanner in the code base. -/
def isFence (l : String) : Bool := sStartsWith (sTrim l) "```"

/-- Function `get_level`: length of the leading run of `#` characters. -/
def getLevel (s : String) : Nat := (s.data.takeWhile (fun c => c = '#')).length

/-- The fence flag a scanner holds after processing `ls` starting from
flag `b` (the `in_code_block` toggling discipline shared by all loops). -/
def scanParity (b : Bool) (ls : List String) : Bool :=
  ls.foldl (fun acc l => if isFence l then !acc else acc) b

/-- First loop of `get_workbook_range`: finds the first line outside a
fence whose trimmed content equals the root marker. -/
def findStartGo (marker : String) (inCode : Bool) (i : Nat) : List String → Option Nat
  | [] => none
  | l :: rest =>
    let inCode2 := if isFence l then !inCode else inCode
    if inCode2 = false ∧ sTrim l = marker then some i
    else findStartGo marker inCode2 (i + 1) rest

/-- Second loop of `get_workbook_range`: finds the first subsequent line
outside a fence whose heading level is strictly below `sheet_header_level`. -/
def findEndGo (level : Nat) (inCode : Bool) (i : Nat) : List String → Option Nat
  | [] => none
  | l :: rest =>
    let t := sTrim l
    let inCode2 := if sStartsWith t "```" then !inCode else inCode
    if inCode2 = false ∧ sStartsWith t "#" = true ∧ getLevel t < level then some i
    else findEndGo level inCode2 (i + 1) rest

/-- The `start_line` of `get_workbook_range`: `0` when the root marker is the
empty (falsy) string, the found index, or the line count when not found. -/
def wbStartLine (lines : List String) (rootMarker : String) : Nat :=
  if rootMarker = "" then 0
  else
    match findStartGo rootMarker false 0 lines with
    | some i => i
    | none => lines.length

/-- The `end_line` of `get_workbook_range`: scans from `start_line + 1` with the
fence flag reset, defaulting to the line count. -/
def wbEndLine (lines : List String) (startLine level : Nat) : Nat :=
  match findEndGo level false (startLine + 1) (lines.drop (startLine + 1)) with
  | some i => i
  | none => lines.length

/-- Function `get_workbook_range(md_text, root_marker, sheet_header_level)`. -/
def get_workbook_range (mdText rootMarker : String) (level : Nat) : Nat × Nat :=
  let lines := splitLines mdText
  let s := wbStartLine lines rootMarker
  (s, wbEndLine lines s level)

theorem scanParity_cons (b : Bool) (l : String) (ls : List String) :
    scanParity b (l :: ls) = scanParity (if isFence l then !b else b) ls := rfl

theorem findStartGo_spec (marker : String) :
    ∀ (ls : List String) (b : Bool) (i0 j : Nat),
    findStartGo marker b i0 ls = some j →
    i0 ≤ j ∧ j - i0 < ls.length ∧
      scanParity b (ls.take (j - i0 + 1)) = false ∧
      sTrim (ls.getD (j - i0) "") = marker := by
  intro ls
  induction ls with
  | nil => intro b i0 j h; simp [findStartGo] at h
  | cons l rest ih =>
    intro b i0 j h
    rw [findStartGo] at h
    by_cases hc : (if isFence l then !b else b) = false ∧ sTrim l = marker
    · rw [if_pos hc] at h
      obtain rfl : i0 = j := Option.some.inj h
      refine ⟨Nat.le_refl _, by simp, ?_, ?_⟩
      · simp only [Nat.sub_self, List.take_succ_cons, List.take_zero, scanParity_cons]
        exact hc.1 ▸ rfl
      · simpa using hc.2
    · rw [if_neg hc] at h
      have := ih _ _ _ h
      obtain ⟨h1, h2, h3, h4⟩ := this
      refine ⟨by omega, by simp; omega, ?_, ?_⟩
      · have hj : j - i0 + 1 = (j - (i0 + 1) + 1) + 1 := by omega
        rw [hj, List.take_succ_cons, scanParity_cons]
        exact h3
      · have hj : j - i0 = (j - (i0 + 1)) + 1 := by omega
        rw [hj, List.getD_cons_succ]
        exact h4

theorem findEndGo_spec (level : Nat) :
    ∀ (ls : List String) (b : Bool) (i0 j : Nat),
    findEndGo level b i0 ls = some j →
    i0 ≤ j ∧ j - i0 < ls.length ∧
      scanParity b (ls.take (j - i0 + 1)) = false ∧
      sStartsWith (sTrim (ls.getD (j - i0) "")) "#" = true ∧
      getLevel (sTrim (ls.getD (j - i0) "")) < level := by
  intro ls
  induction ls with
  | nil => intro b i0 j h; simp [findEndGo] at h
  | cons l rest ih =>
    intro b i0 j h
    rw [findEndGo] at h
    by_cases hc : (if sStartsWith (sTrim l) "```" then !b else b) = false ∧
        sStartsWith (sTrim l) "#" = true ∧ getLevel (sTrim l) < level
    · rw [if_pos hc] at h
      obtain rfl : i0 = j := Option.some.inj h
      refine ⟨Nat.le_refl _, by simp, ?_, ?_, ?_⟩
      · simp only [Nat.sub_self, List.take_succ_cons, List.take_zero, scanParity_cons]
        show (if isFence l then !b else b) = false
        exact hc.1
      · simpa using hc.2.1
      · simpa using hc.2.2
    · rw [if_neg hc] at h
      obtain ⟨h1, h2, h3, h4, h5⟩ := ih _ _ _ h
      refine ⟨by omega, by simp; omega, ?_, ?_, ?_⟩
      · have hj : j - i0 + 1 = (j - (i0 + 1) + 1) + 1 := by omega
        rw [hj, List.take_succ_cons, scanParity_cons]
        exact h3
      · have hj : j - i0 = (j - (i0 + 1)) + 1 := by omega
        rw [hj, List.getD_cons_succ]
        exact h4
      · have hj : j - i0 = (j - (i0 + 1)) + 1 := by omega
        rw [hj, List.getD_cons_succ]
        exact h5

theorem getD_drop_add (l : List String) (n m : Nat) (d : String) :
    (l.drop n).getD m d = l.getD (n + m) d := by
  induction l generalizing n with
  | nil => simp
  | cons a t ih =>
    cases n with
    | zero => simp
    | succ k => simp [Nat.succ_add, ih k]

theorem wbStartLine_spec (lines : List String) (rootMarker : String)
    (hm : rootMarker ≠ "") (hlt : wbStartLine lines rootMarker < lines.length) :
    scanParity false (lines.take (wbStartLine lines rootMarker + 1)) = false ∧
      sTrim (lines.getD (wbStartLine lines rootMarker) "") = rootMarker := by
  unfold wbStartLine at *
  rw [if_neg hm] at *
  cases hfs : findStartGo rootMarker false 0 lines with
  | none => rw [hfs] at hlt; simp at hlt
  | some j =>
    obtain ⟨h1, h2, h3, h4⟩ := findStartGo_spec rootMarker lines false 0 j hfs
    rw [Nat.sub_zero] at h3 h4
    exact ⟨h3, h4⟩

theorem wbEndLine_spec (lines : List String) (s level : Nat)
    (hlt : wbEndLine lines s level < lines.length) :
    s + 1 ≤ wbEndLine lines s level ∧
      scanParity false
        ((lines.drop (s + 1)).take (wbEndLine lines s level - (s + 1) + 1)) = false ∧
      sStartsWith (sTrim (lines.getD (wbEndLine lines s level) "")) "#" = true ∧
      getLevel (sTrim (lines.getD (wbEndLine lines s level) "")) < level := by
  unfold wbEndLine at *
  cases hfe : findEndGo level false (s + 1) (lines.drop (s + 1)) with
  | none => rw [hfe] at hlt; simp at hlt
  | some j =>
    obtain ⟨h1, h2, h3, h4, h5⟩ := findEndGo_spec level (lines.drop (s + 1)) false (s + 1) j hfe
    have hg : (lines.drop (s + 1)).getD (j - (s + 1)) "" = lines.getD j "" := by
      rw [getD_drop_add]
      congr 1
      omega
    exact ⟨h1, h3, by rw [← hg]; exact h4, by rw [← hg]; exact h5⟩

/-! ### `extract_structure` (`utils_structure.py`) -/

inductive SecType where
  | workbook : SecType
  | document : SecType
deriving DecidableEq, Repr

inductive MdSection where
  | workbook : MdSection
  | document (title content : String) : MdSection
deriving DecidableEq, Repr

/-- Scanner state of `extract_structure`: accumulated sections, current
section type and title, accumulated content lines, fence flag. -/
structure ExtState where
  sections : List MdSection
  currentType : Option SecType
  currentTitle : Option String
  currentLines : List String
  inCode : Bool
deriving DecidableEq, Repr

def joinLines (ls : List String) : String :=
  match ls with
  | [] => ""
  | h :: t => t.foldl (fun acc l => acc ++ "\n" ++ l) h

/-- The flush in `extract_structure`: a pending document section is emitted
only when the held title is truthy (non-`None` and non-empty). -/
def flushSection (s : ExtState) : List MdSection :=
  match s.currentTitle with
  | some t =>
    if t ≠ "" ∧ s.currentType = some SecType.document then
      s.sections ++ [MdSection.document t (joinLines s.currentLines)]
    else s.sections
  | none => s.sections

/-- One loop iteration of `extract_structure`: toggle the fence flag, then
outside a fence a level-1 heading (`"# "` but not `"##"`) flushes the
pending section and starts a workbook or document section; every other line
accumulates as content of the current document section. -/
def extractStep (marker : String) (s : ExtState) (line : String) : ExtState :=
  let inCode2 := if isFence line then !s.inCode else s.inCode
  if inCode2 = false ∧ sStartsWith line "# " = true ∧ sStartsWith line "##" = false then
    let secs := flushSection s
    if sTrim line = marker then
      { sections := secs ++ [MdSection.workbook], currentType := some SecType.workbook,
        currentTitle := none, currentLines := [], inCode := inCode2 }
    else
      { sections := secs, currentType := some SecType.document,
        currentTitle := some (sTrim (sDrop line 2)), currentLines := [], inCode := inCode2 }
  else
    { s with
      inCode := inCode2,
      currentLines :=
        (if s.currentType = some SecType.document then s.currentLines ++ [line]
         else s.currentLines) }

/-- Function `extract_structure(md_text, root_marker)`. -/
def extract_structure (mdText marker : String) : List MdSection :=
  flushSection ((splitLines mdText).foldl (extractStep marker)
    ⟨[], none, none, [], false⟩)

theorem extractStep_inFence (marker : String) (s : ExtState) (line : String)
    (hs : s.inCode = true) (hl : isFence line = false) :
    extractStep marker s line =
      { s with
          currentLines :=
          (if s.currentType = some SecType.document then s.currentLines ++ [line]
           else s.currentLines) } := by
  unfold extractStep
  rw [hl]
  simp [hs]

/-- Folding `extract_structure` over a complete fenced block (opening fence,
interior lines, closing fence) starting outside a fence leaves the emitted
sections, the current section type and the current title untouched: interior
heading lines are only accumulated as content. -/
theorem extract_fenced_segment (marker : String) (s : ExtState) (f1 f2 : String)
    (mid : List String) (hs : s.inCode = false)
    (h1 : isFence f1 = true) (h2 : isFence f2 = true)
    (h2h : sStartsWith f2 "# " = false)
    (hmid : ∀ l ∈ mid, isFence l = false) :
    ((([f1] ++ mid) ++ [f2]).foldl (extractStep marker) s).sections = s.sections ∧
    ((([f1] ++ mid) ++ [f2]).foldl (extractStep marker) s).currentType = s.currentType ∧
    ((([f1] ++ mid) ++ [f2]).foldl (extractStep marker) s).currentTitle = s.currentTitle ∧
    ((([f1] ++ mid) ++ [f2]).foldl (extractStep marker) s).inCode = false := by
  have step1 : extractStep marker s f1 =
      { s with
        inCode := true,
        currentLines :=
          (if s.currentType = some SecType.document then s.currentLines ++ [f1]
           else s.currentLines) } := by
    unfold extractStep
    rw [h1]
    cases hct : decide (s.currentType = some SecType.document) <;> simp_all
  set s1 : ExtState :=
    { s with
      inCode := true,
      currentLines :=
        (if s.currentType = some SecType.document then s.currentLines ++ [f1]
         else s.currentLines) } with hs1
  have interior : ∀ (mid : List String) (t : ExtState),
      t.inCode = true → (∀ l ∈ mid, isFence l = false) →
      ∃ extra, mid.foldl (extractStep marker) t =
        { t with currentLines := t.currentLines ++ extra } := by
    intro mid
    induction mid with
    | nil => intro t ht _; exact ⟨[], by simp⟩
    | cons l rest ihm =>
      intro t ht hml
      rw [List.foldl_cons, extractStep_inFence marker t l ht (hml l (by simp))]
      obtain ⟨extra, hex⟩ := ihm
        { t with
          currentLines :=
            (if t.currentType = some SecType.document then t.currentLines ++ [l]
             else t.currentLines) } ht (fun x hx => hml x (by simp [hx]))
      refine ⟨(if t.currentType = some SecType.document then [l] else []) ++ extra, ?_⟩
      rw [hex]
      cases hct : decide (t.currentType = some SecType.document) <;>
        simp_all [List.append_assoc]
  obtain ⟨extra, hex⟩ := interior mid s1 rfl hmid
  have closing : ∀ (t : ExtState), t.inCode = true →
      extractStep marker t f2 = { t with
        inCode := false,
        currentLines :=
          (if t.currentType = some SecType.document then t.currentLines ++ [f2]
           else t.currentLines) } := by
    intro t ht
    unfold extractStep
    rw [h2]
    simp [ht, h2h]
  rw [List.foldl_append, List.foldl_append]
  simp only [List.foldl_cons, List.foldl_nil]
  rw [step1]
  rw [show (List.foldl (extractStep marker) s1 mid) =
    { s1 with currentLines := s1.currentLines ++ extra } from hex]
  rw [closing _ rfl]
  cases hct : decide (s.currentType = some SecType.document) <;> simp_all

/-- C2: the boundary scan is fence-aware.  (1) When `get_workbook_range`
finds a start line, that line is outside every fence (the fence flag at the
chosen line is `false`) and its trimmed content is the root marker — so a
root-marker line lying inside a fenced block is never chosen.  (2) When the
workbook region is terminated by a heading (end line below the line count),
the scan from the line after the start through the terminating line leaves
the fence flag `false`, and the terminator is a heading of level strictly
below `sheet_header_level` — so a shallow heading inside a fence never
terminates the region.  (3) `extract_structure` folded over a complete
fenced block emits no section and changes neither the current section type
nor title — so a heading inside a fence never starts a document section. -/
theorem fence_aware_boundary_scan :
    (∀ (mdText rootMarker : String) (level : Nat),
      rootMarker ≠ "" →
      (get_workbook_range mdText rootMarker level).1 < (splitLines mdText).length →
      scanParity false
          ((splitLines mdText).take ((get_workbook_range mdText rootMarker level).1 + 1))
          = false ∧
        sTrim ((splitLines mdText).getD (get_workbook_range mdText rootMarker level).1 "")
          = rootMarker)
    ∧
    (∀ (mdText rootMarker : String) (level : Nat),
      (get_workbook_range mdText rootMarker level).2 < (splitLines mdText).length →
      (get_workbook_range mdText rootMarker level).1 + 1 ≤
          (get_workbook_range mdText rootMarker level).2 ∧
        scanParity false
          (((splitLines mdText).drop ((get_workbook_range mdText rootMarker level).1 + 1)).take
            ((get_workbook_range mdText rootMarker level).2 -
              ((get_workbook_range mdText rootMarker level).1 + 1) + 1)) = false ∧
        sStartsWith
          (sTrim ((splitLines mdText).getD (get_workbook_range mdText rootMarker level).2 ""))
          "#" = true ∧
        getLevel
          (sTrim ((splitLines mdText).getD (get_workbook_range mdText rootMarker level).2 ""))
          < level)
    ∧
    (∀ (marker : String) (st : ExtState) (f1 f2 : String) (mid : List String),
      st.inCode = false → isFence f1 = true → isFence f2 = true →
      sStartsWith f2 "# " = false → (∀ l ∈ mid, isFence l = false) →
      ((([f1] ++ mid) ++ [f2]).foldl (extractStep marker) st).sections = st.sections ∧
        ((([f1] ++ mid) ++ [f2]).foldl (extractStep marker) st).currentType = st.currentType ∧
        ((([f1] ++ mid) ++ [f2]).foldl (extractStep marker) st).currentTitle = st.currentTitle) := by
  refine ⟨?_, ?_, ?_⟩
  · intro mdText rootMarker level hm hlt
    exact wbStartLine_spec (splitLines mdText) rootMarker hm hlt
  · intro mdText rootMarker level hlt
    exact wbEndLine_spec (splitLines mdText)
      (wbStartLine (splitLines mdText) rootMarker) level hlt
  · intro marker st f1 f2 mid hs h1 h2 h2h hmid
    obtain ⟨a, b, c, _⟩ := extract_fenced_segment marker st f1 f2 mid hs h1 h2 h2h hmid
    exact ⟨a, b, c⟩

/-- Concrete instantiation of `fence_aware_boundary_scan`: a document whose
fenced block contains both a fake root marker and a fake shallow heading. -/
def fenceDemoText : String :=
  "intro\n```\n# Tables\n```\n# Tables\n## S\n```\n# Fake\n```\n# End"

theorem fence_aware_boundary_scan_witness :
    ("# Tables" : String) ≠ "" ∧
    (get_workbook_range fenceDemoText "# Tables" 2).1 < (splitLines fenceDemoText).length ∧
    (get_workbook_range fenceDemoText "# Tables" 2).2 < (splitLines fenceDemoText).length ∧
    (scanParity false
        ((splitLines fenceDemoText).take ((get_workbook_range fenceDemoText "# Tables" 2).1 + 1))
        = false ∧
      sTrim ((splitLines fenceDemoText).getD (get_workbook_range fenceDemoText "# Tables" 2).1 "")
        = "# Tables") ∧
    ((get_workbook_range fenceDemoText "# Tables" 2).1 + 1 ≤
        (get_workbook_range fenceDemoText "# Tables" 2).2 ∧
      scanParity false
        (((splitLines fenceDemoText).drop
            ((get_workbook_range fenceDemoText "# Tables" 2).1 + 1)).take
          ((get_workbook_range fenceDemoText "# Tables" 2).2 -
            ((get_workbook_range fenceDemoText "# Tables" 2).1 + 1) + 1)) = false ∧
      sStartsWith
        (sTrim ((splitLines fenceDemoText).getD
          (get_workbook_range fenceDemoText "# Tables" 2).2 "")) "#" = true ∧
      getLevel
        (sTrim ((splitLines fenceDemoText).getD
          (get_workbook_range fenceDemoText "# Tables" 2).2 "")) < 2) ∧
    ((((["```"] ++ ["# Tables", "## Fake"]) ++ ["```"]).foldl (extractStep "# Tables")
        ⟨[], none, none, [], false⟩).sections = [] ∧
      (((["```"] ++ ["# Tables", "## Fake"]) ++ ["```"]).foldl (extractStep "# Tables")
        ⟨[], none, none, [], false⟩).currentType = none ∧
      (((["```"] ++ ["# Tables", "## Fake"]) ++ ["```"]).foldl (extractStep "# Tables")
        ⟨[], none, none, [], false⟩).currentTitle = none) := by
  refine ⟨by decide, by decide, by decide, ?_, ?_, ?_⟩
  · exact fence_aware_boundary_scan.1 fenceDemoText "# Tables" 2 (by decide) (by decide)
  · exact fence_aware_boundary_scan.2.1 fenceDemoText "# Tables" 2 (by decide)
  · exact fence_aware_boundary_scan.2.2 "# Tables" ⟨[], none, none, [], false⟩
      "```" "```" ["# Tables", "## Fake"] (by decide) (by decide) (by decide)
      (by decide) (by decide)

/-! ## Range/patch builder (`services/workbook.py::generate_and_get_range`) -/

/-- Python `len` on a string (number of characters). -/
def sLen (s : String) : Nat := s.data.length

/-- Number of trailing newline characters of a string. -/
def trailingNewlines (s : String) : Nat :=
  (s.data.reverse.takeWhile (fun c => c = '\n')).length

/-- A string of `n` newline characters. -/
def nlRepl (n : Nat) : String := ⟨List.replicate n '\n'⟩

/-- The `{startLine, endLine, endCol, content}` record returned to callers. -/
structure PatchRange where
  startLine : Nat
  endLine : Nat
  endCol : Nat
  content : String
deriving DecidableEq, Repr

/-- Function `generate_and_get_range`.  Here `workbookEmpty` models
`not workbook or not workbook.sheets`; `schemaRender` is `None` when the
session holds no schema and otherwise the (external) renderer output. -/
def generate_and_get_range (workbookEmpty : Bool) (schemaRender : Option String)
    (mdText rootMarker : String) (level : Nat) : PatchRange :=
  let newMd :=
    if workbookEmpty then ""
    else
      match schemaRender with
      | none => ""
      | some r => r
  let lines := splitLines mdText
  let s := wbStartLine lines rootMarker
  let e := wbEndLine lines s level
  let adjusted :=
    if lines.length ≤ e then
      (lines.length - 1, sLen (lines.getD (lines.length - 1) ""))
    else
      if 0 < e then (e - 1, sLen (lines.getD (e - 1) ""))
      else (e, 0)
  let content := newMd ++ "\n"
  let content2 :=
    if lines.length ≤ s ∧ mdText ≠ "" then
      nlRepl (2 - trailingNewlines mdText) ++ content
    else content
  { startLine := s, endLine := adjusted.1, endCol := adjusted.2, content := content2 }

/-- Scenario D input: a workbook region followed by a trailing document. -/
def hybridText : String :=
  "# Tables\n## S\n| A |\n|---|\n| 1 |\n# Appendix\ntail"

/-- C3 counterexample: with no sheets left, the patch content is the single
newline `"\n"` (the empty rendering plus the forced trailing separator),
not the empty string `""` that the claim states. -/
theorem empty_workbook_patch_content_not_empty :
    (generate_and_get_range true (some "") hybridText "# Tables" 2).content = "\n" ∧
      ("\n" : String) ≠ "" := by
  constructor
  · decide
  · decide

/-- C3 amended: when the workbook has no sheets the patch content is exactly
one newline (empty rendering plus trailing separator, assuming the region
exists so no blank-line prefix is added), and whenever the scan terminates
at a following heading the replaced range stops strictly before that
heading line, leaving the next section outside the replacement. -/
theorem empty_workbook_patch_spec (schemaRender : Option String)
    (mdText rootMarker : String) (level : Nat)
    (hexists : wbStartLine (splitLines mdText) rootMarker < (splitLines mdText).length) :
    (generate_and_get_range true schemaRender mdText rootMarker level).content = "\n" ∧
    (wbEndLine (splitLines mdText) (wbStartLine (splitLines mdText) rootMarker) level <
        (splitLines mdText).length →
      (generate_and_get_range true schemaRender mdText rootMarker level).endLine <
        wbEndLine (splitLines mdText) (wbStartLine (splitLines mdText) rootMarker) level) := by
  have hne : ¬ ((splitLines mdText).length ≤ wbStartLine (splitLines mdText) rootMarker ∧
      mdText ≠ "") := by
    intro hcon
    exact absurd hcon.1 (by omega)
  constructor
  · simp only [generate_and_get_range]
    rw [if_neg hne]
    simp
  · intro hterm
    have hpos : 0 < wbEndLine (splitLines mdText) (wbStartLine (splitLines mdText) rootMarker)
        level := by
      have := (wbEndLine_spec (splitLines mdText)
        (wbStartLine (splitLines mdText) rootMarker) level hterm).1
      omega
    simp only [generate_and_get_range]
    rw [if_neg (by omega : ¬ ((splitLines mdText).length ≤
      wbEndLine (splitLines mdText) (wbStartLine (splitLines mdText) rootMarker) level))]
    rw [if_pos hpos]
    simp only []
    omega

/-- Witness for `empty_workbook_patch_spec` at the Scenario D input: the
region starts at line 0, the terminating heading `# Appendix` is line 5,
and the replacement ends at line 4 with content `"\n"`. -/
theorem empty_workbook_patch_spec_witness :
    wbStartLine (splitLines hybridText) "# Tables" < (splitLines hybridText).length ∧
    (generate_and_get_range true none hybridText "# Tables" 2).content = "\n" ∧
    wbEndLine (splitLines hybridText) (wbStartLine (splitLines hybridText) "# Tables") 2 <
      (splitLines hybridText).length ∧
    (generate_and_get_range true none hybridText "# Tables" 2).endLine <
      wbEndLine (splitLines hybridText) (wbStartLine (splitLines hybridText) "# Tables") 2 := by
  have h := empty_workbook_patch_spec none hybridText "# Tables" 2 (by decide)
  exact ⟨by decide, h.1, by decide, h.2 (by decide)⟩


/-! ## Cell grid model and `services/table.py::move_cells` -/
abbrev Grid := List (List String)

def getCell (g : Grid) (r c : Nat) : String := (g.getD r []).getD c ""

def setCell (g : Grid) (r c : Nat) (v : String) : Grid :=
  g.set r ((g.getD r []).set c v)

theorem length_setCell (g : Grid) (r c : Nat) (v : String) :
    (setCell g r c v).length = g.length := by
  simp [setCell]

theorem getD_setCell_row (g : Grid) (r c : Nat) (v : String) (r2 : Nat) :
    ((setCell g r c v).getD r2 []).length = (g.getD r2 []).length := by
  simp only [setCell, List.getD_eq_getElem?_getD, List.getElem?_set]
  by_cases h : r = r2
  · subst h
    by_cases hr : r < g.length
    · simp [hr]
    · rw [List.getElem?_eq_none (by omega)]
      simp [hr]
  · simp [h]

theorem getCell_setCell (g : Grid) (r c : Nat) (v : String) (r2 c2 : Nat) :
    getCell (setCell g r c v) r2 c2 =
      if r = r2 ∧ c = c2 ∧ r < g.length ∧ c < (g.getD r []).length then v
      else getCell g r2 c2 := by
  simp only [getCell, setCell, List.getD_eq_getElem?_getD]
  by_cases hmain : r = r2 ∧ c = c2 ∧ r < g.length ∧ c < (g[r]?.getD []).length
  · obtain ⟨rfl, rfl, hr, hc⟩ := hmain
    rw [if_pos ⟨rfl, rfl, hr, hc⟩, List.getElem?_set_self hr, Option.getD_some,
      List.getElem?_set_self hc, Option.getD_some]
  · rw [if_neg hmain]
    by_cases hrr : r = r2
    · subst hrr
      by_cases hr : r < g.length
      · by_cases hc : c < (g[r]?.getD []).length
        · have hcc : ¬ c = c2 := fun h => hmain ⟨rfl, h, hr, hc⟩
          rw [List.getElem?_set_self hr, Option.getD_some, List.getElem?_set_ne hcc]
        · rw [List.set_eq_of_length_le (Nat.le_of_not_lt hc), List.getElem?_set_self hr,
            Option.getD_some]
      · rw [List.set_eq_of_length_le (Nat.le_of_not_lt hr)]
    · rw [List.getElem?_set_ne hrr]



/-- Row-major loop writing `fv co` at `(r1, c0+co)` for `co < w`. -/
def setRow (g : Grid) (r1 c0 w : Nat) (fv : Nat → String) : Grid :=
  (List.range w).foldl (fun gc co => setCell gc r1 (c0 + co) (fv co)) g

/-- Nested loop writing `f ro co` at `(r0+ro, c0+co)`. -/
def setRect (g : Grid) (r0 c0 h w : Nat) (f : Nat → Nat → String) : Grid :=
  (List.range h).foldl (fun gr ro => setRow gr (r0 + ro) c0 w (fun co => f ro co)) g

theorem setRow_succ (g : Grid) (r1 c0 w : Nat) (fv : Nat → String) :
    setRow g r1 c0 (w + 1) fv = setCell (setRow g r1 c0 w fv) r1 (c0 + w) (fv w) := by
  unfold setRow
  rw [List.range_succ, List.foldl_append, List.foldl_cons, List.foldl_nil]

theorem setRect_succ (g : Grid) (r0 c0 h w : Nat) (f : Nat → Nat → String) :
    setRect g r0 c0 (h + 1) w f =
      setRow (setRect g r0 c0 h w f) (r0 + h) c0 w (fun co => f h co) := by
  unfold setRect
  rw [List.range_succ, List.foldl_append, List.foldl_cons, List.foldl_nil]

theorem length_setRow (g : Grid) (r1 c0 w : Nat) (fv : Nat → String) :
    (setRow g r1 c0 w fv).length = g.length := by
  induction w with
  | zero => rfl
  | succ k ih => rw [setRow_succ, length_setCell, ih]

theorem rowlen_setRow (g : Grid) (r1 c0 w : Nat) (fv : Nat → String) (r2 : Nat) :
    ((setRow g r1 c0 w fv).getD r2 []).length = (g.getD r2 []).length := by
  induction w with
  | zero => rfl
  | succ k ih => rw [setRow_succ, getD_setCell_row, ih]

theorem length_setRect (g : Grid) (r0 c0 h w : Nat) (f : Nat → Nat → String) :
    (setRect g r0 c0 h w f).length = g.length := by
  induction h with
  | zero => rfl
  | succ k ih => rw [setRect_succ, length_setRow, ih]

theorem rowlen_setRect (g : Grid) (r0 c0 h w : Nat) (f : Nat → Nat → String) (r2 : Nat) :
    ((setRect g r0 c0 h w f).getD r2 []).length = (g.getD r2 []).length := by
  induction h with
  | zero => rfl
  | succ k ih => rw [setRect_succ, rowlen_setRow, ih]

theorem getCell_setRow (g : Grid) (r1 c0 w : Nat) (fv : Nat → String) (r c : Nat) :
    getCell (setRow g r1 c0 w fv) r c =
      if r = r1 ∧ c0 ≤ c ∧ c < c0 + w ∧ r < g.length ∧ c < (g.getD r []).length then
        fv (c - c0)
      else getCell g r c := by
  induction w with
  | zero =>
    rw [if_neg (by omega)]
    rfl
  | succ k ih =>
    rw [setRow_succ, getCell_setCell, length_setRow, rowlen_setRow, ih]
    by_cases h1 : r1 = r ∧ c0 + k = c ∧ r1 < g.length ∧ c0 + k < (g.getD r1 []).length
    · rw [if_pos h1]
      obtain ⟨h1a, h1b, h1c, h1d⟩ := h1
      subst h1a
      subst h1b
      rw [if_pos ⟨rfl, by omega, by omega, h1c, h1d⟩]
      congr 1
      omega
    · rw [if_neg h1]
      by_cases h2 : r = r1 ∧ c0 ≤ c ∧ c < c0 + k ∧ r < g.length ∧ c < (g.getD r []).length
      · rw [if_pos h2, if_pos ⟨h2.1, h2.2.1, by omega, h2.2.2.2⟩]
      · have h3 : ¬ (r = r1 ∧ c0 ≤ c ∧ c < c0 + (k + 1) ∧ r < g.length ∧
            c < (g.getD r []).length) := by
          intro hcon
          obtain ⟨ha, hb, hcc, hd, he⟩ := hcon
          by_cases hck : c < c0 + k
          · exact h2 ⟨ha, hb, hck, hd, he⟩
          · have hceq : c = c0 + k := by omega
            subst ha
            exact h1 ⟨rfl, hceq.symm, hd, by rw [← hceq]; exact he⟩
        rw [if_neg h2, if_neg h3]



theorem getCell_setRect (g : Grid) (r0 c0 h w : Nat) (f : Nat → Nat → String) (r c : Nat) :
    getCell (setRect g r0 c0 h w f) r c =
      if r0 ≤ r ∧ r < r0 + h ∧ c0 ≤ c ∧ c < c0 + w ∧
          r < g.length ∧ c < (g.getD r []).length then
        f (r - r0) (c - c0)
      else getCell g r c := by
  induction h with
  | zero =>
    rw [if_neg (by omega)]
    rfl
  | succ k ih =>
    rw [setRect_succ, getCell_setRow, length_setRect, rowlen_setRect, ih]
    by_cases h1 : r = r0 + k ∧ c0 ≤ c ∧ c < c0 + w ∧ r < g.length ∧
        c < (g.getD r []).length
    · rw [if_pos h1]
      obtain ⟨h1a, h1b, h1c, h1d, h1e⟩ := h1
      subst h1a
      rw [if_pos ⟨by omega, by omega, h1b, h1c, h1d, h1e⟩]
      congr 1
      omega
    · rw [if_neg h1]
      by_cases h2 : r0 ≤ r ∧ r < r0 + k ∧ c0 ≤ c ∧ c < c0 + w ∧ r < g.length ∧
          c < (g.getD r []).length
      · rw [if_pos h2, if_pos ⟨h2.1, by omega, h2.2.2.1, h2.2.2.2.1, h2.2.2.2.2⟩]
      · have h3 : ¬ (r0 ≤ r ∧ r < r0 + (k + 1) ∧ c0 ≤ c ∧ c < c0 + w ∧
            r < g.length ∧ c < (g.getD r []).length) := by
          intro hcon
          obtain ⟨ha, hb, hcc, hd, he, hf⟩ := hcon
          by_cases hrk : r < r0 + k
          · exact h2 ⟨ha, hrk, hcc, hd, he, hf⟩
          · have hreq : r = r0 + k := by omega
            exact h1 ⟨hreq, hcc, hd, he, hf⟩
        rw [if_neg h2, if_neg h3]



/-- Row expansion of `move_cells`: append empty rows of `numCols` cells
until the grid has at least `neededRows` rows. -/
def expandRows (g : Grid) (neededRows numCols : Nat) : Grid :=
  g ++ List.replicate (neededRows - g.length) (List.replicate numCols "")

/-- Column expansion of `move_cells`: pad every row with empty cells until
it has at least `neededCols` cells. -/
def expandCols (g : Grid) (neededCols : Nat) : Grid :=
  g.map (fun row => row ++ List.replicate (neededCols - row.length) "")

theorem length_expandRows (g : Grid) (nr nc : Nat) :
    (expandRows g nr nc).length = max g.length nr := by
  simp [expandRows]
  omega

theorem length_expandCols (g : Grid) (nc : Nat) :
    (expandCols g nc).length = g.length := by
  simp [expandCols]

theorem rowlen_expandCols (g : Grid) (nc r : Nat) (hr : r < g.length) :
    nc ≤ ((expandCols g nc).getD r []).length := by
  simp only [expandCols, List.getD_eq_getElem?_getD, List.getElem?_map]
  rw [List.getElem?_eq_getElem hr]
  simp
  omega

theorem getCell_oob_row (g : Grid) (r c : Nat) (h : g.length ≤ r) :
    getCell g r c = "" := by
  simp only [getCell, List.getD_eq_getElem?_getD, List.getElem?_eq_none h]
  rfl

theorem getCell_oob_col (g : Grid) (r c : Nat) (h : (g.getD r []).length ≤ c) :
    getCell g r c = "" := by
  simp only [getCell, List.getD_eq_getElem?_getD] at h ⊢
  rw [List.getElem?_eq_none h]
  rfl

theorem getCell_expandRows (g : Grid) (nr nc r c : Nat) :
    getCell (expandRows g nr nc) r c = getCell g r c := by
  simp only [getCell, expandRows, List.getD_eq_getElem?_getD]
  by_cases hr : r < g.length
  · rw [List.getElem?_append_left hr]
  · rw [List.getElem?_eq_none (l := g) (by omega)]
    by_cases hr2 : r - g.length < nr - g.length
    · rw [List.getElem?_append_right (by omega), List.getElem?_replicate,
        if_pos (by simpa using hr2)]
      simp only [Option.getD_some, Option.getD_none, List.getElem?_replicate]
      split <;> rfl
    · rw [List.getElem?_append_right (by omega), List.getElem?_replicate,
        if_neg (by simpa using hr2)]

theorem getCell_expandCols (g : Grid) (nc r c : Nat) :
    getCell (expandCols g nc) r c = getCell g r c := by
  simp only [getCell, expandCols, List.getD_eq_getElem?_getD, List.getElem?_map]
  cases hgr : g[r]? with
  | none => rfl
  | some row =>
    simp only [Option.map_some', Option.getD_some]
    by_cases hc : c < row.length
    · rw [List.getElem?_append_left hc]
    · rw [List.getElem?_append_right (by omega), List.getElem?_replicate]
      rw [List.getElem?_eq_none (l := row) (by omega)]
      split <;> rfl

theorem getD_range_map {α : Type} (h : Nat) (f : Nat → α) (ro : Nat) (d : α)
    (hro : ro < h) :
    (((List.range h).map f).getD ro d) = f ro := by
  rw [List.getD_eq_getElem?_getD, List.getElem?_map, List.getElem?_range hro]
  rfl



/-- Function `move_cells` (`services/table.py`): buffered read of the source
rectangle, grid expansion for the destination, clear of the source cells,
then write of the buffer into the destination.  Rectangle spans are written
`max + 1 - min` so that (like Python `range`) an inverted rectangle is
empty. -/
def move_cells (headers : List String) (rows : Grid)
    (minR maxR minC maxC destRow destCol : Nat) : Grid :=
  if minR = destRow ∧ minC = destCol then rows
  else
    let hSpan := maxR + 1 - minR
    let wSpan := maxC + 1 - minC
    let srcData := (List.range hSpan).map (fun ro =>
      (List.range wSpan).map (fun co => getCell rows (minR + ro) (minC + co)))
    let numCols :=
      match headers with
      | [] =>
        match rows with
        | [] => 0
        | r0 :: _ => r0.length
      | _ :: _ => headers.length
    let g1 := expandRows rows (destRow + hSpan) numCols
    let g2 := expandCols g1 (destCol + wSpan)
    let g3 := setRect g2 minR minC hSpan wSpan (fun _ _ => "")
    setRect g3 destRow destCol hSpan wSpan
      (fun ro co => (srcData.getD ro []).getD co "")

/-- C5: `move_cells` behaves as buffered-read, clear, then write.  Every
destination cell receives the value its source cell held before the call
(missing cells reading as the empty string), and every source cell outside
the destination rectangle ends up empty. -/
theorem move_cells_spec (headers : List String) (rows : Grid)
    (minR maxR minC maxC destRow destCol : Nat)
    (hrm : minR ≤ maxR) (hcm : minC ≤ maxC) :
    (∀ ro co, ro < maxR + 1 - minR → co < maxC + 1 - minC →
      getCell (move_cells headers rows minR maxR minC maxC destRow destCol)
          (destRow + ro) (destCol + co) =
        getCell rows (minR + ro) (minC + co))
    ∧
    (∀ r c, minR ≤ r → r ≤ maxR → minC ≤ c → c ≤ maxC →
      ¬ (destRow ≤ r ∧ r < destRow + (maxR + 1 - minR) ∧
          destCol ≤ c ∧ c < destCol + (maxC + 1 - minC)) →
      getCell (move_cells headers rows minR maxR minC maxC destRow destCol) r c = "") := by
  unfold move_cells
  by_cases hnoop : minR = destRow ∧ minC = destCol
  · rw [if_pos hnoop]
    obtain ⟨rfl, rfl⟩ := hnoop
    constructor
    · intro ro co hro hco
      rfl
    · intro r c h1 h2 h3 h4 hnot
      exact absurd ⟨h1, by omega, h3, by omega⟩ hnot
  · rw [if_neg hnoop]
    set hSpan := maxR + 1 - minR with hhS
    set wSpan := maxC + 1 - minC with hwS
    set srcData := (List.range hSpan).map (fun ro =>
      (List.range wSpan).map (fun co => getCell rows (minR + ro) (minC + co))) with hsrc
    set numCols :=
      (match headers with
      | [] =>
        match rows with
        | [] => 0
        | r0 :: _ => r0.length
      | _ :: _ => headers.length) with hnum
    set g1 := expandRows rows (destRow + hSpan) numCols with hg1
    set g2 := expandCols g1 (destCol + wSpan) with hg2
    set g3 := setRect g2 minR minC hSpan wSpan (fun _ _ => "") with hg3
    have hg2len : destRow + hSpan ≤ g2.length := by
      rw [hg2, length_expandCols, hg1, length_expandRows]
      omega
    have hg2row : ∀ r, r < g2.length → destCol + wSpan ≤ (g2.getD r []).length := by
      intro r hr
      rw [hg2]
      apply rowlen_expandCols
      rw [hg2, length_expandCols] at hr
      exact hr
    have hg3len : g3.length = g2.length := by
      rw [hg3, length_setRect]
    have hg3row : ∀ r, (g3.getD r []).length = (g2.getD r []).length := by
      intro r
      rw [hg3, rowlen_setRect]
    constructor
    · intro ro co hro hco
      rw [getCell_setRect, if_pos ?hin]
      case hin =>
        refine ⟨by omega, by omega, by omega, by omega, ?_, ?_⟩
        · rw [hg3len]
          omega
        · rw [hg3row]
          have := hg2row (destRow + ro) (by omega)
          omega
      have hro2 : destRow + ro - destRow = ro := by omega
      have hco2 : destCol + co - destCol = co := by omega
      rw [hro2, hco2, getD_range_map _ _ _ _ hro, getD_range_map _ _ _ _ hco]
    · intro r c h1 h2 h3 h4 hnot
      rw [getCell_setRect, if_neg (by tauto)]
      by_cases hb : r < g2.length ∧ c < (g2.getD r []).length
      · rw [getCell_setRect, if_pos ⟨h1, by omega, h3, by omega, hb.1, hb.2⟩]
      · rw [getCell_setRect, if_neg (by tauto)]
        rcases Nat.lt_or_ge r g2.length with hr | hr
        · have hc : (g2.getD r []).length ≤ c := by
            rcases Nat.lt_or_ge c (g2.getD r []).length with hcl | hcg
            · exact absurd ⟨hr, hcl⟩ hb
            · exact hcg
          exact getCell_oob_col g2 r c hc
        · exact getCell_oob_row g2 r c hr



def demoGrid : Grid := [["a", "b", "c"], ["d", "e", "f"], ["g", "h", "i"]]

theorem move_cells_spec_witness :
    getCell (move_cells ["A", "B", "C"] demoGrid 0 1 0 0 1 0) 1 0 = "a" ∧
    getCell (move_cells ["A", "B", "C"] demoGrid 0 1 0 0 1 0) 2 0 = "d" ∧
    getCell (move_cells ["A", "B", "C"] demoGrid 0 1 0 0 1 0) 0 0 = "" := by
  have h := move_cells_spec ["A", "B", "C"] demoGrid 0 1 0 0 1 0 (by decide) (by decide)
  refine ⟨?_, ?_, ?_⟩
  · have h1 := h.1 0 0 (by decide) (by decide)
    have h2 : getCell (move_cells ["A", "B", "C"] demoGrid 0 1 0 0 1 0) 1 0 =
        getCell demoGrid 0 0 := by simpa using h1
    rw [h2]
    decide
  · have h1 := h.1 1 0 (by decide) (by decide)
    have h2 : getCell (move_cells ["A", "B", "C"] demoGrid 0 1 0 0 1 0) 2 0 =
        getCell demoGrid 1 0 := by simpa using h1
    rw [h2]
    decide
  · exact h.2 0 0 (by decide) (by decide) (by decide) (by decide) (by decide)


/-! ## Index remap algebra (`services/table.py::_shift_column_metadata`) -/
/-! Shift-map model -/

abbrev ShiftMap := List (Int × Option Int)

def smLookup : ShiftMap → Int → Option (Option Int)
  | [], _ => none
  | (k, v) :: rest, i => if k = i then some v else smLookup rest i

/-- Python `int(k)` on a string key: optional surrounding whitespace, an
optional sign, then decimal digits (digit-group underscores are not
modelled). `none` models the `ValueError` branch. -/
def digitsVal (l : List Char) : Option Nat :=
  match l with
  | [] => none
  | _ =>
    l.foldl
      (fun acc c =>
        match acc with
        | none => none
        | some n => if c.isDigit then some (n * 10 + (c.toNat - 48)) else none)
      (some 0)

def isSpaceChar' (c : Char) : Bool :=
  c = ' ' ∨ c = '\t' ∨ c = '\n' ∨ c = '\r'

def pyInt? (s : String) : Option Int :=
  match (s.data.dropWhile isSpaceChar').reverse.dropWhile isSpaceChar' |>.reverse with
  | [] => none
  | c :: rest =>
    if c = '-' then (digitsVal rest).map (fun n => -(n : Int))
    else if c = '+' then (digitsVal rest).map (fun n => (n : Int))
    else (digitsVal (c :: rest)).map (fun n => (n : Int))

def digitChar (n : Nat) : Char := Char.ofNat (48 + n)

def natToStrGo : Nat → Nat → List Char
  | 0, _ => []
  | fuel + 1, n =>
    if n < 10 then [digitChar n]
    else natToStrGo fuel (n / 10) ++ [digitChar (n % 10)]

/-- Python `str(i)` for an integer (fuel-based so it evaluates in the
kernel). -/
def intToStr (i : Int) : String :=
  if i < 0 then ⟨'-' :: natToStrGo (i.natAbs + 1) i.natAbs⟩
  else ⟨natToStrGo (i.toNat + 1) i.toNat⟩

/-! Dict model: association list with dict-style insert-or-replace. -/

def dictInsert {β : Type} : List (String × β) → String → β → List (String × β)
  | [], k, v => [(k, v)]
  | (k0, v0) :: rest, k, v =>
    if k0 = k then (k0, v) :: rest else (k0, v0) :: dictInsert rest k v

def dictLookup {β : Type} : List (String × β) → String → Option β
  | [], _ => none
  | (k0, v0) :: rest, k => if k0 = k then some v0 else dictLookup rest k

/-- Per-entry action of `shift_dict`: integer-parsable keys found in the
shift map are renamed (`some new`) or dropped (`None`), all other keys pass
through. -/
def shiftEntry {β : Type} (m : ShiftMap) (p : String × β) : Option (String × β) :=
  match pyInt? p.1 with
  | some idx =>
    match smLookup m idx with
    | some (some newIdx) => some (intToStr newIdx, p.2)
    | some none => none
    | none => some p
  | none => some p

/-- Inner helper `shift_dict` of `_shift_column_metadata`: rebuilds the
dict by inserting each entry under its (possibly shifted) key. -/
def shift_dict {β : Type} (m : ShiftMap) (source : List (String × β)) :
    List (String × β) :=
  source.foldl
    (fun acc p =>
      match shiftEntry m p with
      | some (k2, v2) => dictInsert acc k2 v2
      | none => acc)
    []

theorem dictInsert_fresh {β : Type} (acc : List (String × β)) (k : String) (v : β)
    (h : ∀ p ∈ acc, p.1 ≠ k) : dictInsert acc k v = acc ++ [(k, v)] := by
  induction acc with
  | nil => rfl
  | cons p rest ih =>
    rw [dictInsert]
    rw [if_neg (h p (by simp))]
    rw [ih (fun q hq => h q (by simp [hq]))]
    rfl

theorem shift_dict_go {β : Type} (m : ShiftMap) :
    ∀ (source acc : List (String × β)),
    ((acc ++ source.filterMap (shiftEntry m)).map Prod.fst).Nodup →
    source.foldl
      (fun acc p =>
        match shiftEntry m p with
        | some (k2, v2) => dictInsert acc k2 v2
        | none => acc)
      acc = acc ++ source.filterMap (shiftEntry m) := by
  intro source
  induction source with
  | nil => intro acc _; simp
  | cons p rest ih =>
    intro acc hnd
    rw [List.foldl_cons]
    cases hse : shiftEntry m p with
    | none =>
      simp only [List.filterMap_cons_none hse] at hnd ⊢
      exact ih acc hnd
    | some q =>
      obtain ⟨k2, v2⟩ := q
      simp only [List.filterMap_cons_some hse] at hnd ⊢
      have hk2 : k2 ∉ acc.map Prod.fst := by
        rw [List.map_append, List.nodup_append] at hnd
        intro hmem
        exact hnd.2.2 hmem (by simp)
      rw [dictInsert_fresh acc k2 v2
        (fun r hr heq => hk2 (heq ▸ List.mem_map_of_mem Prod.fst hr))]
      have hrearr : (acc ++ [(k2, v2)]) ++ rest.filterMap (shiftEntry m) =
          acc ++ ((k2, v2) :: rest.filterMap (shiftEntry m)) := by
        simp
      rw [ih (acc ++ [(k2, v2)]) (by rw [hrearr]; exact hnd), hrearr]

/-- Characterisation of `shift_dict` when the shifted keys stay pairwise
distinct: the rebuilt dict is exactly the entrywise rename/delete of the
source (renamed keys for mapped indices, dropped entries for `Removed`,
untouched non-integer and out-of-map keys). -/
theorem shift_dict_eq_filterMap {β : Type} (m : ShiftMap) (source : List (String × β))
    (hnd : ((source.filterMap (shiftEntry m)).map Prod.fst).Nodup) :
    shift_dict m source = source.filterMap (shiftEntry m) := by
  unfold shift_dict
  rw [shift_dict_go m source [] (by simpa using hnd)]
  rfl



/-- Typed model of the `visual` sub-dict: named sections the shift touches
plus a passthrough bucket for every other key (`column_widths` included,
since `_shift_column_metadata` never looks at it). -/
structure VisualMeta (α : Type) where
  validation : Option (List (String × α))
  columns : Option (List (String × α))
  filters : Option (List (String × α))
  vothers : List (String × List (String × α))
deriving DecidableEq, Repr

/-- Typed model of a table's metadata dict: the top-level `validation`
section, the `visual` sub-dict, and a passthrough bucket for every other
top-level key (the legacy `columnWidths` included). -/
structure TableMeta (α : Type) where
  validation : Option (List (String × α))
  visual : Option (VisualMeta α)
  others : List (String × List (String × α))
deriving DecidableEq, Repr

/-- `_shift_column_metadata(metadata, shift_map)` (`services/table.py`):
shifts the top-level `validation` dict and, inside `visual`, the
`validation`, `columns` and `filters` dicts; everything else is copied. -/
def shift_column_metadata {α : Type} (meta : TableMeta α) (m : ShiftMap) :
    TableMeta α :=
  { validation := meta.validation.map (shift_dict m)
    visual := meta.visual.map (fun vis =>
      { validation := vis.validation.map (shift_dict m)
        columns := vis.columns.map (shift_dict m)
        filters := vis.filters.map (shift_dict m)
        vothers := vis.vothers })
    others := meta.others }

/-- Shift map built by `insert_column`: indices before the insertion point
stay, the rest move one to the right. -/
def insertShiftMap (colCount insertPos : Nat) : ShiftMap :=
  (List.range colCount).map (fun i =>
    ((i : Int), some (if insertPos ≤ i then (i : Int) + 1 else (i : Int))))

/-- Shift map built by `delete_columns`: deleted indices map to `Removed`
(`none`), survivors are renumbered by their rank among the survivors. -/
def deleteShiftMap (colCount : Nat) (deleted : List Nat) : ShiftMap :=
  ((List.range colCount).foldl
    (fun acc i =>
      if i ∈ deleted then (acc.1 ++ [((i : Int), (none : Option Int))], acc.2)
      else (acc.1 ++ [((i : Int), some (acc.2 : Int))], acc.2 + 1))
    ([], 0)).1

/-- One-column demo metadata: a width entry for column `0` under both
`visual.column_widths` and the legacy top-level `columnWidths`. -/
def demoMeta : TableMeta Nat :=
  { validation := some [("0", 7)]
    visual := some
      { validation := none
        columns := none
        filters := none
        vothers := [("column_widths", [("0", 100)])] }
    others := [("columnWidths", [("0", 100)])] }

/-- C1 counterexample: deleting column `0` of a one-column table produces
the shift map sending index `0` to `Removed`; the claim demands the `"0"`
entries under `visual.column_widths` and the legacy top-level
`columnWidths` be deleted, but `_shift_column_metadata` leaves both maps
untouched (while it does delete the `"0"` entry of `validation`). -/
theorem shift_column_metadata_skips_column_widths :
    smLookup (deleteShiftMap 1 [0]) 0 = some none ∧
    (shift_column_metadata demoMeta (deleteShiftMap 1 [0])).visual =
      (some { validation := none, columns := none, filters := none,
              vothers := [("column_widths", [("0", 100)])] } : Option (VisualMeta Nat)) ∧
    (shift_column_metadata demoMeta (deleteShiftMap 1 [0])).others =
      [("columnWidths", [("0", 100)])] ∧
    (shift_column_metadata demoMeta (deleteShiftMap 1 [0])).validation = some [] := by
  refine ⟨by decide, by decide, by decide, by decide⟩



/-- The shifted keys of a (possibly absent) dict stay pairwise distinct. -/
def shiftOk {α : Type} (m : ShiftMap) (o : Option (List (String × α))) : Prop :=
  ∀ s, o = some s → ((s.filterMap (shiftEntry m)).map Prod.fst).Nodup

/-- C1 amended: for every shift map whose renaming keeps keys distinct,
`_shift_column_metadata` renumbers the integer-string keys — deleting
`Removed` entries, renaming mapped ones, passing through non-integer and
out-of-map keys — of exactly the top-level `validation` dict and the
`validation`, `columns` and `filters` dicts under `visual`; every other
key under `visual` (in particular `column_widths`) and every other
top-level key (in particular the legacy `columnWidths`) is left untouched. -/
theorem shift_column_metadata_spec {α : Type} (meta : TableMeta α) (m : ShiftMap)
    (hv : shiftOk m meta.validation)
    (hvis : ∀ vis, meta.visual = some vis →
      shiftOk m vis.validation ∧ shiftOk m vis.columns ∧ shiftOk m vis.filters) :
    ((shift_column_metadata meta m).validation =
        meta.validation.map (fun s => s.filterMap (shiftEntry m))) ∧
    (∀ vis, meta.visual = some vis →
      (shift_column_metadata meta m).visual = some
        { validation := vis.validation.map (fun s => s.filterMap (shiftEntry m))
          columns := vis.columns.map (fun s => s.filterMap (shiftEntry m))
          filters := vis.filters.map (fun s => s.filterMap (shiftEntry m))
          vothers := vis.vothers }) ∧
    ((shift_column_metadata meta m).others = meta.others) ∧
    (∀ (k : String) (idx : Int) (v : α), pyInt? k = some idx →
      smLookup m idx = some none → shiftEntry m (k, v) = none) ∧
    (∀ (k : String) (idx j : Int) (v : α), pyInt? k = some idx →
      smLookup m idx = some (some j) → shiftEntry m (k, v) = some (intToStr j, v)) ∧
    (∀ (k : String) (v : α), pyInt? k = none → shiftEntry m (k, v) = some (k, v)) := by
  refine ⟨?_, ?_, rfl, ?_, ?_, ?_⟩
  · cases hval : meta.validation with
    | none => simp [shift_column_metadata, hval]
    | some s =>
      simp only [shift_column_metadata, hval, Option.map_some']
      rw [shift_dict_eq_filterMap m s (hv s hval)]
  · intro vis hvisv
    obtain ⟨h1, h2, h3⟩ := hvis vis hvisv
    simp only [shift_column_metadata, hvisv, Option.map_some']
    congr 1
    refine VisualMeta.mk.injEq .. |>.mpr ⟨?_, ?_, ?_, rfl⟩
    · cases hx : vis.validation with
      | none => simp
      | some s =>
        simp only [Option.map_some']
        rw [shift_dict_eq_filterMap m s (h1 s hx)]
    · cases hx : vis.columns with
      | none => simp
      | some s =>
        simp only [Option.map_some']
        rw [shift_dict_eq_filterMap m s (h2 s hx)]
    · cases hx : vis.filters with
      | none => simp
      | some s =>
        simp only [Option.map_some']
        rw [shift_dict_eq_filterMap m s (h3 s hx)]
  · intro k idx v hk hm
    simp [shiftEntry, hk, hm]
  · intro k idx j v hk hm
    simp [shiftEntry, hk, hm]
  · intro k v hk
    simp [shiftEntry, hk]

/-- Demo metadata with all four shiftable dicts present. -/
def demoMeta2 : TableMeta Nat :=
  { validation := some [("0", 1), ("1", 2), ("2", 3), ("x", 9)]
    visual := some
      { validation := some [("2", 5)]
        columns := some [("1", 4)]
        filters := some [("0", 6)]
        vothers := [("column_widths", [("2", 30)])] }
    others := [("columnWidths", [("1", 10)])] }

theorem shift_column_metadata_spec_witness :
    ((shift_column_metadata demoMeta2 (deleteShiftMap 3 [1])).validation =
      some [("0", 1), ("1", 3), ("x", 9)]) ∧
    ((shift_column_metadata demoMeta2 (deleteShiftMap 3 [1])).visual =
      some { validation := some [("1", 5)]
             columns := some []
             filters := some [("0", 6)]
             vothers := [("column_widths", [("2", 30)])] }) ∧
    ((shift_column_metadata demoMeta2 (deleteShiftMap 3 [1])).others =
      [("columnWidths", [("1", 10)])]) := by
  have h := shift_column_metadata_spec demoMeta2 (deleteShiftMap 3 [1])
    (by intro s hs; cases hs; decide)
    (by
      intro vis hvis
      cases hvis
      exact ⟨by intro s hs; cases hs; decide,
        by intro s hs; cases hs; decide,
        by intro s hs; cases hs; decide⟩)
  refine ⟨?_, ?_, h.2.2.1⟩
  · rw [h.1]
    decide
  · rw [h.2.1 _ rfl]
    decide

/-! ## Column insertion (`services/table.py::insert_column`, `api.py::insert_column`) -/

/-- A table as the column operations see it: header list, row grid, and
optional metadata (`None` models a falsy `table.metadata`). -/
structure TableData (α : Type) where
  headers : List String
  rows : Grid
  meta : Option (TableMeta α)

/-- Function `insert_column` of `services/table.py` restricted to the table
transform: clamp the insertion position into `[0, len(headers)]`, insert
the column name into the headers, pad each row to the header count and
insert an empty cell, then shift the column metadata with the insert map.
The `api.py` wrapper passes `column_name="New Column"` when the caller
supplies no name. -/
def insert_column {α : Type} (t : TableData α) (colIdx : Nat) (columnName : String) :
    TableData α :=
  let insertPos := min colIdx t.headers.length
  { headers := t.headers.take insertPos ++ [columnName] ++ t.headers.drop insertPos
    rows := t.rows.map (fun row =>
      let padded := row ++ List.replicate (t.headers.length - row.length) ""
      padded.take insertPos ++ [""] ++ padded.drop insertPos)
    meta := t.meta.map (fun mm =>
      shift_column_metadata mm (insertShiftMap t.headers.length insertPos)) }

/-- Modelled from the spec: the external collaborator
`parse_workbook` (outside this repository) applied to the Scenario A text
`"# Tables\n## Sheet1\n| A | B |\n|---|---|\n| 1 | 2 |\n"` yields one sheet
`Sheet1` holding one table with headers `["A", "B"]` and the single row
`["1", "2"]`. -/
def scenarioATable : TableData Nat :=
  { headers := ["A", "B"], rows := [["1", "2"]], meta := none }

/-- C7 counterexample: on the Scenario A table, `insertColumn(0,0,at=0)`
with no explicit column name goes through `api.py`'s default
`column_name="New Column"`, so the headers are not `["", "A", "B"]`. -/
theorem insert_column_scenario_a_counterexample :
    ¬ ((insert_column scenarioATable 0 "New Column").headers = ["", "A", "B"]) := by
  decide

/-- C7 amended: on the Scenario A table, `insertColumn(0,0,at=0)` with no
explicit column name yields headers `["New Column", "A", "B"]` and the
single row `["", "1", "2"]` — the data row does gain an empty cell, but the
header gains the default name `"New Column"`, not the empty string. -/
theorem insert_column_scenario_a :
    (insert_column scenarioATable 0 "New Column").headers = ["New Column", "A", "B"] ∧
    (insert_column scenarioATable 0 "New Column").rows = [["", "1", "2"]] := by
  constructor
  · decide
  · decide

/-! ## Tab-order reconciler (`services/workbook.py::reorder_tab_metadata`, `services/sheet.py::move_sheet`) -/


structure TabEntry where
  kind : String
  index : Nat
deriving DecidableEq, Repr

/-- First position of an equal value in a list (Python `list.index`, as a
total function). -/
def posOf {α : Type} [DecidableEq α] (l : List α) (a : α) : Option Nat :=
  l.findIdx? (fun x => x = a)

def reorder_tab_metadata (tabOrder : List TabEntry) (itemType : String)
    (fromIdx toIdx : Nat) (target : Option Nat) : List TabEntry :=
  if tabOrder = [] then tabOrder
  else
    let indicesInTabOrder := (tabOrder.filter (fun e => e.kind = itemType)).map (fun e => e.index)
    if indicesInTabOrder = [] then tabOrder
    else
      let maxIndex := max (indicesInTabOrder.foldl max 0) fromIdx
      let dummy := List.range (maxIndex + 1)
      let dummy2 :=
        if fromIdx < dummy.length then
          let moved := dummy.getD fromIdx 0
          let popped := dummy.take fromIdx ++ dummy.drop (fromIdx + 1)
          let clampedTo := min toIdx maxIndex
          let insertIdx := min clampedTo popped.length
          popped.take insertIdx ++ [moved] ++ popped.drop insertIdx
        else dummy
      let remap : Nat → Nat := fun old =>
        match posOf dummy2 old with
        | some nv => nv
        | none => old
      let remapped := tabOrder.map (fun e =>
        if e.kind = itemType then { e with index := remap e.index } else e)
      match target with
      | none => remapped
      | some t =>
        if tabOrder.any (fun e => e.kind = itemType ∧ e.index = fromIdx) then
          let movedVal : TabEntry := ⟨itemType, remap fromIdx⟩
          match posOf remapped movedVal with
          | some currPos =>
            let popped := remapped.take currPos ++ remapped.drop (currPos + 1)
            let t2 := if currPos < t then t - 1 else t
            let safeTarget := min t2 popped.length
            popped.take safeTarget ++ [movedVal] ++ popped.drop safeTarget
          | none => remapped
        else remapped

def move_sheet {σ : Type} (sheets : List σ) (tabOrder : List TabEntry)
    (fromIndex toIndex : Nat) (target : Option Nat) :
    Except String (List σ × List TabEntry) :=
  if h : fromIndex < sheets.length then
    let sheet := sheets.get ⟨fromIndex, h⟩
    let popped := sheets.take fromIndex ++ sheets.drop (fromIndex + 1)
    let insertIdx := min toIndex popped.length
    let newSheets := popped.take insertIdx ++ [sheet] ++ popped.drop insertIdx
    let tab2 :=
      match target with
      | none => tabOrder
      | some t => reorder_tab_metadata tabOrder "sheet" fromIndex insertIdx (some t)
    Except.ok (newSheets, tab2)
  else Except.error "Invalid source index"



/-- C4 counterexample: with a customised display order
`[doc(0), sheet(1), sheet(0), doc(1)]`, `move_sheet(0, 1)` **without** a
target display index physically swaps the two sheets but returns the
tab_order unchanged; the claim requires every sheet entry to be rewritten
through the pop/insert remap (`0 ↦ 1`, `1 ↦ 0`), which would give
`[doc(0), sheet(0), sheet(1), doc(1)]` — a different list. -/
theorem move_sheet_no_target_counterexample :
    move_sheet ["A", "B"]
        [⟨"document", 0⟩, ⟨"sheet", 1⟩, ⟨"sheet", 0⟩, ⟨"document", 1⟩] 0 1 none =
      Except.ok (["B", "A"],
        [⟨"document", 0⟩, ⟨"sheet", 1⟩, ⟨"sheet", 0⟩, ⟨"document", 1⟩]) ∧
    ([⟨"document", 0⟩, ⟨"sheet", 1⟩, ⟨"sheet", 0⟩, ⟨"document", 1⟩] : List TabEntry) ≠
      [⟨"document", 0⟩, ⟨"sheet", 0⟩, ⟨"sheet", 1⟩, ⟨"document", 1⟩] := by
  constructor
  · rfl
  · decide

/-- C4 amended: the tab-order reconciliation of `move_sheet` runs **only
when a target display index is supplied**.  With the Scenario B input
`tab_order = [doc(0), sheet(0), sheet(1), doc(1)]` and
`moveSheet(from=0, to=1, target=3)` the entries are remapped through the
pop/insert simulation and the moved entry repositioned, producing the
display list `[doc(0), sheet(0), sheet(1), doc(1)]` over the swapped
physical sheets; with no target the physical sheets move but the
tab_order is returned exactly as it was. -/
theorem move_sheet_tab_reconciliation :
    (move_sheet ["A", "B"]
        [⟨"document", 0⟩, ⟨"sheet", 0⟩, ⟨"sheet", 1⟩, ⟨"document", 1⟩] 0 1 (some 3) =
      Except.ok (["B", "A"],
        [⟨"document", 0⟩, ⟨"sheet", 0⟩, ⟨"sheet", 1⟩, ⟨"document", 1⟩]))
    ∧
    (∀ (σ : Type) (sheets : List σ) (tabOrder : List TabEntry) (f t : Nat),
      f < sheets.length →
      ∃ s2, move_sheet sheets tabOrder f t none = Except.ok (s2, tabOrder)) := by
  constructor
  · rfl
  · intro σ sheets tabOrder f t h
    unfold move_sheet
    rw [dif_pos h]
    exact ⟨_, rfl⟩

/-- Witness instantiating the no-target half of
`move_sheet_tab_reconciliation` at a concrete session. -/
theorem move_sheet_tab_reconciliation_witness :
    ∃ s2, move_sheet ["X", "Y", "Z"]
        [⟨"sheet", 2⟩, ⟨"sheet", 0⟩, ⟨"sheet", 1⟩] 0 2 none =
      Except.ok (s2, [⟨"sheet", 2⟩, ⟨"sheet", 0⟩, ⟨"sheet", 1⟩]) :=
  move_sheet_tab_reconciliation.2 String ["X", "Y", "Z"]
    [⟨"sheet", 2⟩, ⟨"sheet", 0⟩, ⟨"sheet", 1⟩] 0 2 (by decide)

/-! ## Tab-order synthesis on insert (`services/sheet.py::add_sheet`,
`services/document.py::add_document`) -/

/-- Python `list.insert`: the position is clamped into `[0, len]`. -/
def listInsertPy {α : Type} (l : List α) (i : Nat) (a : α) : List α :=
  let pos := min i l.length
  l.take pos ++ [a] ++ l.drop pos

/-- Append branch of `add_sheet` (no usable `after_sheet_index`): when the
held tab_order is empty it is first populated with one **sheet** entry per
existing sheet — documents are never considered — then the new sheet entry
is inserted at the target position or appended. -/
def add_sheet_append_branch (nSheets : Nat) (base : List TabEntry)
    (target : Option Nat) : List TabEntry :=
  let synth :=
    if base = [] ∧ 0 < nSheets then
      (List.range nSheets).map (fun i => (⟨"sheet", i⟩ : TabEntry))
    else base
  match target with
  | some t => listInsertPy synth t ⟨"sheet", nSheets⟩
  | none => synth ++ [⟨"sheet", nSheets⟩]

/-- Tab-order handling of `add_sheet`: position/renumber or append branch,
followed by the redundancy cleanup that drops a tab_order exactly equal to
the trivial sheets-in-physical-order list. `none` models an absent
`tab_order` key. -/
def add_sheet_tab_meta (nSheets : Nat) (tabOrder0 : Option (List TabEntry))
    (afterSheetIndex : Option Nat) (target : Option Nat) : Option (List TabEntry) :=
  let base := tabOrder0.getD []
  let tabOrder :=
    match afterSheetIndex with
    | some idx =>
      if idx ≤ nSheets then
        let renumbered := base.map (fun e =>
          if e.kind = "sheet" ∧ idx ≤ e.index then { e with index := e.index + 1 } else e)
        match target with
        | some t => listInsertPy renumbered t ⟨"sheet", idx⟩
        | none => renumbered ++ [⟨"sheet", idx⟩]
      else add_sheet_append_branch nSheets base target
    | none => add_sheet_append_branch nSheets base target
  if tabOrder = (List.range (nSheets + 1)).map (fun i => (⟨"sheet", i⟩ : TabEntry)) then
    none
  else some tabOrder

/-- Modelled from the spec: `initialize_tab_order_from_structure` is
imported by `services/document.py` from `services/workbook.py`, but its
definition is not part of this source tree.  Per §4.5 of the spec it
synthesizes the tab order from the current physical structure: one
document entry per document heading and the sheet entries at the workbook
position, all in file order (fence-aware scan); when the root marker is
absent the sheet entries are appended at the end. -/
def synthTabOrderFromStructure (mdText rootMarker : String) (nSheets : Nat) :
    List TabEntry :=
  let sheetEntries := (List.range nSheets).map (fun i => (⟨"sheet", i⟩ : TabEntry))
  let res := (splitLines mdText).foldl
    (fun (st : Bool × Bool × Nat × List TabEntry) line =>
      let inCode2 := if isFence line then !st.1 else st.1
      if inCode2 = false ∧ sStartsWith line "# " = true ∧
          sStartsWith line "##" = false then
        if sTrim line = rootMarker then
          if st.2.1 then (inCode2, st.2.1, st.2.2.1, st.2.2.2)
          else (inCode2, true, st.2.2.1, st.2.2.2 ++ sheetEntries)
        else (inCode2, st.2.1, st.2.2.1 + 1, st.2.2.2 ++ [⟨"document", st.2.2.1⟩])
      else (inCode2, st.2.1, st.2.2.1, st.2.2.2))
    (false, false, 0, [])
  if res.2.1 then res.2.2.2 else res.2.2.2 ++ sheetEntries

/-- Tab-order handling of `add_document`: when the held tab_order is empty
it is first synthesized from the physical structure (documents included),
then existing document entries at or after the new document's index are
renumbered and the new entry is inserted or appended. -/
def add_document_tab_meta (mdText rootMarker : String) (nSheets : Nat)
    (tabOrder0 : Option (List TabEntry)) (afterDocIndex : Option Nat)
    (insertAfterTabOrderIndex : Option Nat) : List TabEntry :=
  let base := tabOrder0.getD []
  let tab1 :=
    if base = [] then synthTabOrderFromStructure mdText rootMarker nSheets else base
  let newDocIndex :=
    match afterDocIndex with
    | some i => i + 1
    | none => 0
  let tab2 := tab1.map (fun e =>
    if e.kind = "document" ∧ newDocIndex ≤ e.index then
      (⟨"document", e.index + 1⟩ : TabEntry)
    else e)
  match insertAfterTabOrderIndex with
  | some i => listInsertPy tab2 (min (i + 1) tab2.length) ⟨"document", newDocIndex⟩
  | none => tab2 ++ [⟨"document", newDocIndex⟩]

theorem mem_listInsertPy {α : Type} (l : List α) (i : Nat) (a x : α)
    (h : x ∈ listInsertPy l i a) : x = a ∨ x ∈ l := by
  unfold listInsertPy at h
  simp only [List.mem_append, List.mem_singleton] at h
  rcases h with (h | h) | h
  · exact Or.inr (List.mem_of_mem_take h)
  · exact Or.inl h
  · exact Or.inr (List.mem_of_mem_drop h)

/-- A document before and after the workbook region. -/
def docDemoText : String :=
  "# Doc A\n\ncontent\n\n# Tables\n## S1\n| A |\n|---|\n| 1 |\n\n# Doc B"

/-- C6 counterexample: in a session whose text holds two document sections,
`add_sheet` with no existing tab_order and an explicit tab-order target
persists the sheets-only list `[sheet(1), sheet(0)]` — the synthesized
base never contains a document entry, contradicting the claim that the
list is first synthesized with one entry per existing document. -/
theorem add_sheet_ignores_documents_counterexample :
    ((extract_structure docDemoText "# Tables").filter
      (fun s => match s with
        | MdSection.document _ _ => true
        | _ => false)).length = 2 ∧
    add_sheet_tab_meta 1 none none (some 0) =
      some [⟨"sheet", 1⟩, ⟨"sheet", 0⟩] ∧
    ((add_sheet_tab_meta 1 none none (some 0)).getD []).filter
      (fun e => e.kind = "document") = [] ∧
    (add_sheet_tab_meta 1 none none (some 0)).getD [] ≠ [] := by
  refine ⟨by decide, by decide, by decide, by decide⟩

/-- C6 amended: only the document-add synthesizes the tab order from the
full physical structure before inserting (documents and sheets in file
order, via the spec-modelled `initialize_tab_order_from_structure`); the
sheet-add synthesizes sheet entries only, so every entry of the list it
persists has kind `sheet` even when document sections exist, and only the
trivial sheets-in-order result is dropped rather than persisted. -/
theorem tab_order_synthesis_spec :
    (∀ (nSheets : Nat) (target : Option Nat),
      ∀ e ∈ (add_sheet_tab_meta nSheets none none target).getD [], e.kind = "sheet")
    ∧
    (add_document_tab_meta docDemoText "# Tables" 1 none none none =
      [⟨"document", 1⟩, ⟨"sheet", 0⟩, ⟨"document", 2⟩, ⟨"document", 0⟩]) := by
  constructor
  · intro nSheets target e he
    unfold add_sheet_tab_meta at he
    simp only [Option.getD_none] at he
    set tabOrder := add_sheet_append_branch nSheets [] target with hto
    by_cases hred : tabOrder =
        (List.range (nSheets + 1)).map (fun i => (⟨"sheet", i⟩ : TabEntry))
    · rw [if_pos hred] at he
      simp at he
    · rw [if_neg hred] at he
      simp only [Option.getD_some] at he
      have hsynth : ∀ (c : Prop) (hc : Decidable c) (x : TabEntry),
          x ∈ (@ite _ c hc
            ((List.range nSheets).map (fun i => (⟨"sheet", i⟩ : TabEntry))) []) →
          x.kind = "sheet" := by
        intro c hc x hx
        split at hx
        · simp only [List.mem_map] at hx
          obtain ⟨i, _, rfl⟩ := hx
          rfl
        · simp at hx
      rw [hto] at he
      unfold add_sheet_append_branch at he
      cases target with
      | none =>
        simp only [List.mem_append, List.mem_singleton] at he
        rcases he with he | he
        · exact hsynth _ _ e he
        · rw [he]
      | some t =>
        rcases mem_listInsertPy _ _ _ _ he with he | he
        · rw [he]
        · exact hsynth _ _ e he
  · decide

/-- Witness instantiating the sheet-add half of `tab_order_synthesis_spec`
at the counterexample session. -/
theorem tab_order_synthesis_spec_witness :
    (⟨"sheet", 1⟩ : TabEntry).kind = "sheet" :=
  tab_order_synthesis_spec.1 1 (some 0) ⟨"sheet", 1⟩ (by decide)

/-! ## Session atomicity (`services/workbook.py::update_workbook`) -/
/-! Session model for `update_workbook` -/

structure Wb (σ : Type) where
  sheets : List σ
deriving DecidableEq, Repr

inductive ConfigState where
  | absent : ConfigState
  | valid (rootMarker : String) (level : Nat) : ConfigState
  | invalid : ConfigState
deriving DecidableEq, Repr

structure Ctx (σ : Type) where
  workbook : Option (Wb σ)
  mdText : String
  config : ConfigState
  hasSchema : Bool
  renderOut : String
deriving DecidableEq, Repr

def ctxGenerate {σ : Type} [DecidableEq σ] (ctx : Ctx σ) : Except String PatchRange :=
  let workbookEmpty :=
    match ctx.workbook with
    | none => true
    | some wb => decide (wb.sheets = [])
  let schemaRender := if ctx.hasSchema then some ctx.renderOut else none
  match ctx.config with
  | ConfigState.invalid => Except.error "Expecting value: line 1 column 1 (char 0)"
  | ConfigState.absent =>
    Except.ok (generate_and_get_range workbookEmpty schemaRender ctx.mdText "# Tables" 2)
  | ConfigState.valid marker level =>
    Except.ok (generate_and_get_range workbookEmpty schemaRender ctx.mdText marker level)

def update_workbook {σ : Type} [DecidableEq σ] (ctx : Ctx σ)
    (transform : Wb σ → Except String (Wb σ)) :
    Ctx σ × Except String PatchRange :=
  match ctx.workbook with
  | none => (ctx, Except.error "No workbook")
  | some wb =>
    match transform wb with
    | Except.error e => (ctx, Except.error e)
    | Except.ok wb2 =>
      let ctx2 := { ctx with workbook := some wb2 }
      match ctxGenerate ctx2 with
      | Except.error e => (ctx2, Except.error e)
      | Except.ok r => (ctx2, Except.ok r)

def isErr {ε α : Type} : Except ε α → Bool
  | Except.error _ => true
  | Except.ok _ => false

def demoCtx : Ctx String :=
  { workbook := some ⟨["S1"]⟩, mdText := "# Tables\n## S1", config := ConfigState.invalid,
    hasSchema := true, renderOut := "rendered" }

/-- C8 counterexample: with a session whose config string is not valid
JSON, a mutation through `update_workbook` returns a structured error (the
`json.loads` failure inside `generate_and_get_range` is caught by the
catch-all), yet the session's held workbook has already been replaced by
the transformed model — the state is not what it was before the call. -/
theorem update_workbook_error_after_update :
    isErr (update_workbook demoCtx (fun _ => Except.ok ⟨[]⟩)).2 = true ∧
    (update_workbook demoCtx (fun _ => Except.ok ⟨[]⟩)).1.workbook = some ⟨[]⟩ ∧
    demoCtx.workbook = some ⟨["S1"]⟩ ∧
    (some (⟨[]⟩ : Wb String) ≠ some (⟨["S1"]⟩ : Wb String)) := by
  refine ⟨rfl, rfl, rfl, by decide⟩

/-- C8 amended: `update_workbook` converts every failure into an
`{error}` value, and a failure raised inside the transform itself leaves
the session untouched; but once the transform succeeds the session's model
is replaced **before** the range generation runs, so a failure there
returns an error with the model already updated. -/
theorem update_workbook_atomicity {σ : Type} [DecidableEq σ] (ctx : Ctx σ)
    (t : Wb σ → Except String (Wb σ)) :
    (ctx.workbook = none → update_workbook ctx t = (ctx, Except.error "No workbook")) ∧
    (∀ wb e, ctx.workbook = some wb → t wb = Except.error e →
      update_workbook ctx t = (ctx, Except.error e)) ∧
    (∀ wb wb2, ctx.workbook = some wb → t wb = Except.ok wb2 →
      (update_workbook ctx t).1 = { ctx with workbook := some wb2 }) := by
  refine ⟨?_, ?_, ?_⟩
  · intro h
    unfold update_workbook
    rw [h]
  · intro wb e hwb ht
    unfold update_workbook
    simp only [hwb, ht]
  · intro wb wb2 hwb ht
    unfold update_workbook
    simp only [hwb, ht]
    cases hg : ctxGenerate { ctx with workbook := some wb2 } <;> simp [hg]

/-- Second demo session, with a parseable config. -/
def demoCtx2 : Ctx String :=
  { workbook := some ⟨["S1"]⟩, mdText := "# Tables\n## S1",
    config := ConfigState.valid "# Tables" 2, hasSchema := true, renderOut := "rendered" }

/-- Witness instantiating `update_workbook_atomicity`: a failing transform
leaves the session untouched, a succeeding one replaces the model. -/
theorem update_workbook_atomicity_witness :
    update_workbook demoCtx2 (fun _ => Except.error "boom") =
      (demoCtx2, Except.error "boom") ∧
    (update_workbook demoCtx2 (fun _ => Except.ok ⟨[]⟩)).1 =
      { demoCtx2 with workbook := some (⟨[]⟩ : Wb String) } :=
  ⟨(update_workbook_atomicity demoCtx2 (fun _ => Except.error "boom")).2.1
      ⟨["S1"]⟩ "boom" rfl rfl,
   (update_workbook_atomicity demoCtx2 (fun _ => Except.ok ⟨[]⟩)).2.2
      ⟨["S1"]⟩ ⟨[]⟩ rfl rfl⟩

/-! ## In-place mutation of shared tab-order entries (`reorder_tab_metadata`, C9) -/
/-! Heap model for the in-place entry mutation of `reorder_tab_metadata` -/

def defEntry : TabEntry := ⟨"", 0⟩

/-- The dummy-list pop/insert remap of `reorder_tab_metadata` step 1. -/
def tabRemap (view : List TabEntry) (itemType : String) (fromIdx toIdx : Nat) :
    Nat → Nat := fun old =>
  let indicesInTabOrder := (view.filter (fun e => e.kind = itemType)).map (fun e => e.index)
  let maxIndex := max (indicesInTabOrder.foldl max 0) fromIdx
  let dummy := List.range (maxIndex + 1)
  let dummy2 :=
    if fromIdx < dummy.length then
      let moved := dummy.getD fromIdx 0
      let popped := dummy.take fromIdx ++ dummy.drop (fromIdx + 1)
      let clampedTo := min toIdx maxIndex
      let insertIdx := min clampedTo popped.length
      popped.take insertIdx ++ [moved] ++ popped.drop insertIdx
    else dummy
  match posOf dummy2 old with
  | some nv => nv
  | none => old

/-- Entrywise effect of step 1 on a single shared entry dict. -/
def tabRemapEntry (view : List TabEntry) (itemType : String) (fromIdx toIdx : Nat)
    (e : TabEntry) : TabEntry :=
  if e.kind = itemType then { e with index := tabRemap view itemType fromIdx toIdx e.index }
  else e

/-- Step 1 of `reorder_tab_metadata` as it actually executes: the loop
writes the remapped `index` **through the shared references** into the
store (`item["index"] = new_index_map[old_idx]`), so every holder of those
entry dicts observes the change. -/
def reorderStoreStep1 (store : List TabEntry) (refs : List Nat)
    (upd : TabEntry → TabEntry) : List TabEntry :=
  refs.foldl (fun st r => st.set r (upd (st.getD r defEntry))) store

theorem length_reorderStoreStep1 (store : List TabEntry) (refs : List Nat)
    (upd : TabEntry → TabEntry) :
    (reorderStoreStep1 store refs upd).length = store.length := by
  induction refs generalizing store with
  | nil => rfl
  | cons r rest ih =>
    unfold reorderStoreStep1 at *
    rw [List.foldl_cons, ih, List.length_set]

theorem getD_set_self (l : List TabEntry) (r : Nat) (v : TabEntry) (hr : r < l.length) :
    (l.set r v).getD r defEntry = v := by
  rw [List.getD_eq_getElem?_getD, List.getElem?_set_self hr]
  rfl

theorem getD_set_ne (l : List TabEntry) (r r2 : Nat) (v : TabEntry) (h : r ≠ r2) :
    (l.set r v).getD r2 defEntry = l.getD r2 defEntry := by
  rw [List.getD_eq_getElem?_getD, List.getElem?_set_ne h, List.getD_eq_getElem?_getD]

theorem reorderStoreStep1_getD (upd : TabEntry → TabEntry) :
    ∀ (refs : List Nat) (store : List TabEntry) (r : Nat),
    refs.Nodup → (∀ x ∈ refs, x < store.length) →
    (reorderStoreStep1 store refs upd).getD r defEntry =
      if r ∈ refs then upd (store.getD r defEntry) else store.getD r defEntry := by
  intro refs
  induction refs with
  | nil =>
    intro store r _ _
    simp [reorderStoreStep1]
  | cons r0 rest ih =>
    intro store r hnd hb
    have hr0 : r0 < store.length := hb r0 (by simp)
    unfold reorderStoreStep1
    rw [List.foldl_cons]
    have := ih (store.set r0 (upd (store.getD r0 defEntry))) r
      (by exact hnd.of_cons)
      (by intro x hx; rw [List.length_set]; exact hb x (by simp [hx]))
    unfold reorderStoreStep1 at this
    rw [this]
    by_cases hmem : r ∈ rest
    · rw [if_pos hmem, if_pos (by simp [hmem])]
      have hne : r0 ≠ r := by
        intro hEq
        subst hEq
        exact (List.nodup_cons.mp hnd).1 hmem
      rw [getD_set_ne _ _ _ _ hne]
    · rw [if_neg hmem]
      by_cases hr0r : r = r0
      · subst hr0r
        rw [if_pos (by simp), getD_set_self _ _ _ hr0]
      · rw [if_neg (by simp [hr0r, hmem]), getD_set_ne _ _ _ _ (fun h => hr0r h.symm)]



/-- Store-level `reorder_tab_metadata`: the metadata dict and the tab_order
list are copied (`dict(...)`, `list(...)`) but the entry dicts are shared;
step 1 rewrites their `index` fields through the shared references, step 2
repositions a reference in the copied list only. -/
def reorder_tab_metadata_store (store : List TabEntry) (refs : List Nat)
    (itemType : String) (fromIdx toIdx : Nat) (target : Option Nat) :
    List TabEntry × List Nat :=
  let view := refs.map (fun r => store.getD r defEntry)
  if view = [] then (store, refs)
  else if (view.filter (fun e => e.kind = itemType)).map (fun e => e.index) = [] then
    (store, refs)
  else
    let upd := tabRemapEntry view itemType fromIdx toIdx
    let store2 := reorderStoreStep1 store refs upd
    let refs2 :=
      match target with
      | none => refs
      | some t =>
        if view.any (fun e => e.kind = itemType ∧ e.index = fromIdx) then
          let movedVal : TabEntry := ⟨itemType, tabRemap view itemType fromIdx toIdx fromIdx⟩
          match posOf (refs.map (fun r => store2.getD r defEntry)) movedVal with
          | some currPos =>
            let popped := refs.take currPos ++ refs.drop (currPos + 1)
            let t2 := if currPos < t then t - 1 else t
            let safeTarget := min t2 popped.length
            popped.take safeTarget ++ [refs.getD currPos 0] ++ popped.drop safeTarget
          | none => refs
        else refs
    (store2, refs2)



/-- C9 counterexample: a `move_sheet` with a tab-order target calls
`reorder_tab_metadata`, whose step 1 writes the remapped indices through
the entry dicts shared with the previously returned Workbook; the old
snapshot (still holding references `[0,1,2,3]`) observes
`[doc(0), sheet(1), sheet(0), doc(1)]` after the call instead of the
`[doc(0), sheet(0), sheet(1), doc(1)]` it held before — it is not
structurally identical. -/
theorem old_snapshot_mutated_counterexample :
    (let result := reorder_tab_metadata_store
        [⟨"document", 0⟩, ⟨"sheet", 0⟩, ⟨"sheet", 1⟩, ⟨"document", 1⟩]
        [0, 1, 2, 3] "sheet" 0 1 (some 3)
     ([0, 1, 2, 3].map (fun r => result.1.getD r defEntry) =
        [⟨"document", 0⟩, ⟨"sheet", 1⟩, ⟨"sheet", 0⟩, ⟨"document", 1⟩]) ∧
     result.2 = [0, 2, 1, 3]) ∧
    ([⟨"document", 0⟩, ⟨"sheet", 1⟩, ⟨"sheet", 0⟩, ⟨"document", 1⟩] : List TabEntry) ≠
      [⟨"document", 0⟩, ⟨"sheet", 0⟩, ⟨"sheet", 1⟩, ⟨"document", 1⟩] := by
  refine ⟨⟨by decide, by decide⟩, by decide⟩

/-- C9 amended: edit operations do allocate a fresh Workbook, metadata
dict and tab_order list, but `reorder_tab_metadata` mutates the shared
tab_order entry dicts in place: after the call, every entry reachable from
a previously returned snapshot holds the step-1 remapped value (kind
unchanged, `index` rewritten for entries of the moved kind), not its
original value. -/
theorem reorder_tab_metadata_store_spec (store : List TabEntry) (refs : List Nat)
    (itemType : String) (fromIdx toIdx : Nat) (target : Option Nat)
    (hnd : refs.Nodup) (hb : ∀ x ∈ refs, x < store.length)
    (hview : refs.map (fun r => store.getD r defEntry) ≠ [])
    (hfilter : ((refs.map (fun r => store.getD r defEntry)).filter
      (fun e => e.kind = itemType)).map (fun e => e.index) ≠ []) :
    ∀ r ∈ refs,
      (reorder_tab_metadata_store store refs itemType fromIdx toIdx target).1.getD r defEntry =
        tabRemapEntry (refs.map (fun x => store.getD x defEntry)) itemType fromIdx toIdx
          (store.getD r defEntry) := by
  intro r hr
  unfold reorder_tab_metadata_store
  rw [if_neg hview, if_neg hfilter]
  simp only []
  rw [reorderStoreStep1_getD _ refs store r hnd hb, if_pos hr]

/-- Witness instantiating `reorder_tab_metadata_store_spec` at the
Scenario B session: the entry shared with the old snapshot at reference 1
now carries index 1. -/
theorem reorder_tab_metadata_store_spec_witness :
    (reorder_tab_metadata_store
        [⟨"document", 0⟩, ⟨"sheet", 0⟩, ⟨"sheet", 1⟩, ⟨"document", 1⟩]
        [0, 1, 2, 3] "sheet" 0 1 (some 3)).1.getD 1 defEntry = ⟨"sheet", 1⟩ := by
  have h := reorder_tab_metadata_store_spec
    [⟨"document", 0⟩, ⟨"sheet", 0⟩, ⟨"sheet", 1⟩, ⟨"document", 1⟩]
    [0, 1, 2, 3] "sheet" 0 1 (some 3)
    (by decide) (by decide) (by decide) (by decide) 1 (by decide)
  rw [h]
  decide

end MdSheets
